import Mathlib

/-!
Verification development for the painel360 recommendation engine.

The Python sources are shallowly embedded over lists of characters:
Python strings become `Str := List Char`, Python dicts with string keys
become association lists, the OpenAI completion client becomes an oracle
function `Str → Option Str` (`none` models a raised exception),
and code that can raise an uncaught exception returns `Option`.
-/

set_option maxRecDepth 20000

/-- Python strings are modelled as lists of characters. -/
abbrev Str := List Char

/-- Characters treated as whitespace by Python's default str.strip and
regex white-space class (ASCII fragment). -/
def isPySpace (c : Char) : Bool :=
  c = ' ' || c = '\t' || c = '\n' || c = '\r' || c = '\x0b' || c = '\x0c'

/-- Convenience: the character list of a Lean string literal. -/
def strS (s : String) : Str := s.toList

/-- Python str.lower (ASCII fragment). -/
def lowerS (s : Str) : Str := s.map Char.toLower

/-- Python str.strip() with no argument: drop whitespace at both ends. -/
def trimL (s : Str) : Str :=
  ((s.dropWhile isPySpace).reverse.dropWhile isPySpace).reverse

/-- Prefix test on character lists. -/
def isPrefL : Str → Str → Bool
  | [], _ => true
  | _ :: _, [] => false
  | a :: t, b :: u => a = b && isPrefL t u

/-- Python's `needle in hay` substring containment. -/
def isSubL : Str → Str → Bool
  | n, [] => isPrefL n []
  | n, c :: t => isPrefL n (c :: t) || isSubL n t

/-- Python str.split(sep) restricted to a single character separator,
as used for text.split(a newline). -/
def splitOnC (sep : Char) : Str → List Str
  | [] => [[]]
  | c :: t =>
    match splitOnC sep t with
    | [] => [[c]]
    | h :: r => if c = sep then [] :: h :: r else (c :: h) :: r

/-- Python str.split(sep, 1): split at the first occurrence of sep,
returning the pieces before and after it, or none if sep never occurs. -/
def splitFirst (sep : Str) : Str → Option (Str × Str)
  | [] => if sep = [] then some ([], []) else none
  | c :: t =>
    if isPrefL sep (c :: t) then some ([], (c :: t).drop sep.length)
    else match splitFirst sep t with
      | some (a, b) => some (c :: a, b)
      | none => none

/-- Digit run to a natural number, Python int() on a nonempty digit string. -/
def natOfDigits (ds : Str) : Nat :=
  ds.foldl (fun n c => n * 10 + (c.toNat - '0'.toNat)) 0

/-- Decimal rendering of a natural number as a character list,
Python str(n) / f-string interpolation of an int. -/
def natStr (n : Nat) : Str := strS (Nat.repr n)

/-- A Python dict with string keys and values, e.g. one solution record or
one company-data record, is an association list in insertion order. -/
abbrev Sol := List (Str × Str)

/-- Python dict.get(k, dflt): the stored value when the key is present
(even a falsy one), the default otherwise. -/
def getD (d : List (Str × Str)) (k : Str) (dflt : Str) : Str :=
  match List.lookup k d with
  | some v => v
  | none => dflt

/-- Python d.get(k1, d.get(k2, dflt)), the two-alias column probe used
throughout the sources. -/
def get2 (d : List (Str × Str)) (k1 k2 dflt : Str) : Str :=
  match List.lookup k1 d with
  | some v => v
  | none =>
    match List.lookup k2 d with
    | some v => v
    | none => dflt

/-- Python dict assignment d[k] = v: overwrite in place when the key
exists, append otherwise. -/
def insertA {α : Type} (d : List (Str × α)) (k : Str) (v : α) : List (Str × α) :=
  if (List.lookup k d).isSome then
    d.map (fun kv => if kv.1 = k then (kv.1, v) else kv)
  else d ++ [(k, v)]

/-- The canonical key 'Nome da solução' (solution name). -/
def nomeSolK : Str := strS "Nome da solução"

/-- The dict of available solutions keyed by lower-cased name, from
parse_recommendations: later solutions overwrite earlier equal keys. -/
def buildDict (sols : List Sol) : List (Str × Sol) :=
  sols.foldl (fun d sol => insertA d (lowerS (getD sol nomeSolK [])) sol) []

/-- The duplicated matching block of parse_recommendations: exact dict
lookup first (exact_match = true), else the first dict entry related to
the candidate by substring containment in either direction
(exact_match = false), else none. -/
def matchSolution (key : Str) (dict : List (Str × Sol)) : Option (Sol × Bool) :=
  match List.lookup key dict with
  | some sol => some (sol, true)
  | none =>
    match dict.find? (fun kv => isSubL key kv.1 || isSubL kv.1 key) with
    | some kv => some (kv.2, false)
    | none => none

/-- One structured recommendation as built by parse_recommendations. -/
structure RecRec where
  number : Str
  solution_name : Str
  justification : Str
  exact_match : Bool
  solution_data : Sol
deriving DecidableEq, Repr

/-- Lookahead of the strategy-1 pattern: digits, a dot, whitespace and an
opening bracket start the next numbered recommendation. -/
def lookMarker (l : Str) : Bool :=
  let (ds, r1) := l.span Char.isDigit
  ds ≠ [] &&
    match r1 with
    | '.' :: r2 =>
      let (ws, r3) := r2.span isPySpace
      ws ≠ [] && r3.head? = some '['
    | _ => false

/-- Lazy justification of strategy 1: consume characters until the next
numbered-bracket marker, the end of the text, or a lone final newline
(the positions where the regex lookahead succeeds under DOTALL). -/
def lazyJust : Str → Str × Str
  | [] => ([], [])
  | c :: t =>
    if lookMarker (c :: t) || c :: t = ['\n'] then ([], c :: t)
    else
      let (j, r) := lazyJust t
      (c :: j, r)

/-- One attempt of the strategy-1 regex at the current position: the
pattern is digits, dot, whitespace, a bracketed name, a colon,
whitespace and a lazily matched justification. Returns the three capture
groups and the remaining unscanned text. -/
def matchAt (l : Str) : Option ((Str × Str × Str) × Str) :=
  let (ds, r1) := l.span Char.isDigit
  if ds = [] then none
  else
    match r1 with
    | '.' :: r2 =>
      let (ws, r3) := r2.span isPySpace
      if ws = [] then none
      else
        match r3 with
        | '[' :: r4 =>
          let (nm, r5) := r4.span (fun c => c ≠ ']')
          if nm = [] then none
          else
            match r5 with
            | ']' :: ':' :: r6 =>
              let (ws2, r7) := r6.span isPySpace
              if ws2 = [] then none
              else
                let (js, rest) := lazyJust r7
                some ((ds, nm, js), rest)
            | _ => none
        | _ => none
    | _ => none

/-- re.findall scanning loop for the strategy-1 pattern; on a successful
match it continues after the match, otherwise one character further on.
The fuel argument bounds the number of scan steps. -/
def findallAux : Nat → Str → List (Str × Str × Str)
  | 0, _ => []
  | _ + 1, [] => []
  | fuel + 1, c :: t =>
    match matchAt (c :: t) with
    | some (g, rest) => g :: findallAux fuel rest
    | none => findallAux fuel t

/-- All matches of the strategy-1 numbered-bracket pattern in the text. -/
def findallRecs (text : Str) : List (Str × Str × Str) :=
  findallAux (text.length + 1) text

/-- Build the structured recommendation for one strategy-1 regex match. -/
def mkRec1 (dict : List (Str × Sol)) : Str × Str × Str → RecRec
  | (number, nm, js) =>
    match matchSolution (lowerS (trimL nm)) dict with
    | some (sol, ex) =>
      { number := trimL number
        solution_name := getD sol nomeSolK (trimL nm)
        justification := trimL js
        exact_match := ex
        solution_data := sol }
    | none =>
      { number := trimL number
        solution_name := trimL nm
        justification := trimL js
        exact_match := false
        solution_data := [(nomeSolK, trimL nm)] }

/-- Parser strategy 1: regex over the numbered-bracket format. -/
def strat1 (text : Str) (dict : List (Str × Sol)) : List RecRec :=
  (findallRecs text).map (mkRec1 dict)

/-- A partially assembled recommendation of the strategy-2 line scan. -/
structure PartRec where
  number : Str
  solution_name : Str
  justification : Str
deriving DecidableEq, Repr

/-- Finalization of a strategy-2 record: resolve its name (no stripping,
matching the source) and fill the match fields. -/
def finalize2 (dict : List (Str × Sol)) (pr : PartRec) : RecRec :=
  match matchSolution (lowerS pr.solution_name) dict with
  | some (sol, ex) =>
    { number := pr.number
      solution_name := getD sol nomeSolK pr.solution_name
      justification := pr.justification
      exact_match := ex
      solution_data := sol }
  | none =>
    { number := pr.number
      solution_name := pr.solution_name
      justification := pr.justification
      exact_match := false
      solution_data := [(nomeSolK, pr.solution_name)] }

/-- Strategy-2 line loop. A stripped line whose first character is a
digit and that contains dot-space among its first ten characters opens a
new record; other nonempty lines extend the current justification. The
name of a marker line containing colon-space is the part of its
colon-prefix after the first dot-space; when that prefix has no
dot-space the source raises IndexError, modelled as none. -/
def strat2Loop (dict : List (Str × Sol)) :
    List Str → Option PartRec → List RecRec → Option (List RecRec)
  | [], cur, acc =>
    match cur with
    | some pr => some (acc ++ [finalize2 dict pr])
    | none => some acc
  | line :: rest, cur, acc =>
    let l := trimL line
    if l = [] then strat2Loop dict rest cur acc
    else
      if ((l.head?.map Char.isDigit).getD false) && isSubL (strS ". ") (l.take 10) then
        let acc2 := match cur with
          | some pr => acc ++ [finalize2 dict pr]
          | none => acc
        match splitFirst (strS ": ") l with
        | some (before, after) =>
          match splitFirst (strS ". ") before with
          | some (_, nm) =>
            strat2Loop dict rest
              (some { number := l.take 1, solution_name := nm, justification := after }) acc2
          | none => none
        | none =>
          strat2Loop dict rest
            (some { number := l.take 1, solution_name := l.drop 2, justification := [] }) acc2
      else
        match cur with
        | some pr =>
          strat2Loop dict rest
            (some { pr with justification := pr.justification ++ [' '] ++ l }) acc
        | none => strat2Loop dict rest none acc

/-- Parser strategy 2: the loose line-based scan; none models the
IndexError the source can raise while extracting a name. -/
def strat2 (text : Str) (dict : List (Str × Sol)) : Option (List RecRec) :=
  strat2Loop dict (splitOnC '\n' text) none []

/-- Parser strategy 3: every line containing a colon is split at its
first colon into name and justification, numbered by line position. -/
def strat3 (text : Str) (dict : List (Str × Sol)) : List RecRec :=
  ((splitOnC '\n' text).enum.filterMap fun iline =>
    let l := trimL iline.2
    if l ≠ [] && l.contains ':' then
      match splitFirst (strS ":") l with
      | some (before, after) =>
        let nameS := trimL before
        let js := trimL after
        match matchSolution (lowerS nameS) dict with
        | some (sol, ex) =>
          some { number := natStr (iline.1 + 1)
                 solution_name := getD sol nomeSolK nameS
                 justification := js
                 exact_match := ex
                 solution_data := sol }
        | none =>
          some { number := natStr (iline.1 + 1)
                 solution_name := nameS
                 justification := js
                 exact_match := false
                 solution_data := [(nomeSolK, nameS)] }
      | none => none
    else none)

/-- parse_recommendations from recommendation_system.py: strategy 1, then
strategy 2 when it found nothing, then strategy 3, truncated to five
records; none models the uncaught IndexError of strategy 2. -/
def parse_recommendations (text : Str) (sols : List Sol) : Option (List RecRec) :=
  let dict := buildDict sols
  let recs1 := strat1 text dict
  if recs1.isEmpty then
    match strat2 text dict with
    | none => none
    | some recs2 =>
      if recs2.isEmpty then some ((strat3 text dict).take 5)
      else some (recs2.take 5)
  else some (recs1.take 5)

/-- The f-string line of one available solution in the recommendation
prompt: name, modality, theme, source and the description truncated to
one hundred characters. -/
def solutionLine (sol : Sol) : Str :=
  strS "- " ++ getD sol nomeSolK [] ++ strS ": " ++ getD sol (strS "Modalidade") [] ++
    strS " | " ++ getD sol (strS "Tema") [] ++ strS " | " ++ getD sol (strS "Fonte") [] ++
    strS " | " ++ (getD sol (strS "Descrição") []).take 100 ++ strS "..."

/-- The f-string line of one already-scheduled solution. -/
def scheduledLine (sol : Sol) : Str :=
  strS "- " ++ getD sol nomeSolK [] ++ strS ": " ++ getD sol (strS "Modalidade") [] ++
    strS " | " ++ getD sol (strS "Data prevista") []

/-- The fixed opening block of the recommendation prompt, up to the
company name. -/
def promptHeader : Str :=
  strS "\n        Você é um consultor especializado do Sebrae MG que recomenda soluções para empresas com base em seus desafios e necessidades.\n        \n        DADOS DA EMPRESA:\n        - Nome: "

/-- generate_recommendation_prompt from recommendation_system.py: renders
company attributes, at most thirty catalog entries and the scheduled
exclusions into the instruction text; none when no solutions are
available. An empty scheduled list plays the role of Python's None
default (both are falsy and used nowhere else). -/
def generate_recommendation_prompt (cd : Sol) (sols : List Sol) (sched : List Sol) :
    Option Str :=
  let company_name := get2 cd (strS "Nome da empresa") (strS "Nome Empresa") (strS "Empresa")
  let challenge := get2 cd (strS "Desafio priorizado") (strS "Categoria do Problema") []
  let specific_need := get2 cd (strS "Necessidade específica") (strS "Descrição do Problema") []
  let sector := getD cd (strS "Setor") []
  let maturity := get2 cd (strS "Maturidade em inovação") (strS "Média diagnóstico inicial") []
  let stage := get2 cd (strS "Estágio do diagnóstico") (strS "Encontro") []
  let city := get2 cd (strS "Cidade") (strS "Município") []
  let regional := get2 cd (strS "Regional") (strS "Escritório Regional") []
  if sols = [] then none
  else
    let solutions_text := List.intercalate (strS "\n") ((sols.take 30).map solutionLine)
    let scheduled_text :=
      if sched = [] then []
      else strS "Soluções já agendadas para esta empresa ou região:\n" ++
        List.intercalate (strS "\n") (sched.map scheduledLine)
    some (promptHeader ++
      company_name ++ strS "\n        - Cidade/Regional: " ++ city ++ strS "/" ++ regional ++
      strS "\n        - Setor: " ++ sector ++
      strS "\n        - Desafio priorizado: " ++ challenge ++
      strS "\n        - Maturidade em inovação: " ++ maturity ++
      strS "\n        - Necessidade específica: " ++ specific_need ++
      strS "\n        - Estágio do diagnóstico: " ++ stage ++
      strS "\n        \n        SOLUÇÕES DISPONÍVEIS:\n        " ++ solutions_text ++
      strS "\n        \n        " ++ scheduled_text ++
      strS "\n        \n        TAREFA:\n        Recomende as 5 melhores soluções do Sebrae para esta empresa, considerando:\n        1. Alinhamento com o desafio priorizado e necessidade específica\n        2. Adequação ao setor e maturidade da empresa\n        3. Evite recomendar soluções já agendadas\n        4. Para cada recomendação, explique por que é adequada para esta empresa\n        5. Seja específico e detalhado nas justificativas\n        \n        Formato da resposta:\n        1. [Nome exato da Solução 1]: [Justificativa detalhada]\n        2. [Nome exato da Solução 2]: [Justificativa detalhada]\n        3. [Nome exato da Solução 3]: [Justificativa detalhada]\n        4. [Nome exato da Solução 4]: [Justificativa detalhada]\n        5. [Nome exato da Solução 5]: [Justificativa detalhada]\n        \n        IMPORTANTE: Use EXATAMENTE os nomes das soluções conforme listados acima.\n        ")

/-- The cache key of get_recommendations: company name, a hyphen and the
challenge, concatenated as plain strings. -/
def cacheKey (cd : Sol) : Str :=
  get2 cd (strS "Nome da empresa") (strS "Nome Empresa") [] ++ ['-'] ++
    get2 cd (strS "Desafio priorizado") (strS "Categoria do Problema") []

/-- The mutable state of a RecommendationSystem instance relevant here:
the recommendation cache, plus a counter of completion-service
invocations used to state the single-flight properties. -/
structure SysState where
  cache : List (Str × List RecRec)
  calls : Nat
deriving DecidableEq, Repr

/-- get_recommendations from recommendation_system.py, with the
completion service abstracted as an oracle svc from prompt to response
text (none models a raised ServiceError, caught by the source's except
branch). A failed service call or a parse exception is caught and yields
the empty list without writing the cache; a successful parse is cached
under the concatenated key. -/
def get_recommendations (svc : Str → Option Str) (cd : Sol) (sols sched : List Sol)
    (st : SysState) : List RecRec × SysState :=
  if cd = [] then ([], st)
  else if sols = [] then ([], st)
  else
    let key := cacheKey cd
    match List.lookup key st.cache with
    | some recs => (recs, st)
    | none =>
      match generate_recommendation_prompt cd sols sched with
      | none => ([], st)
      | some prompt =>
        if prompt = [] then ([], st)
        else
          match svc prompt with
          | none => ([], { st with calls := st.calls + 1 })
          | some content =>
            match parse_recommendations (trimL content) sols with
            | none => ([], { st with calls := st.calls + 1 })
            | some recs =>
              (recs, { cache := insertA st.cache key recs, calls := st.calls + 1 })

/-- One request to get_recommendations: company data, available
solutions and already-scheduled solutions. -/
structure Req where
  cd : Sol
  sols : List Sol
  sched : List Sol

/-- Run a sequence of get_recommendations calls against one system
state, collecting each call's return value and the final state. -/
def runCalls (svc : Str → Option Str) : List Req → SysState → List (List RecRec) × SysState
  | [], st => ([], st)
  | r :: rest, st =>
    let (o, st1) := get_recommendations svc r.cd r.sols r.sched st
    let (os, stF) := runCalls svc rest st1
    (o :: os, stF)

/-- Lazy justification of the adherence pattern: consume characters
until a case-insensitive occurrence of the word Empresa, the end of the
text, or a lone final newline (the lookahead positions). -/
def lazyAdhJust : Str → Str
  | [] => []
  | c :: t =>
    if ((c :: t).take 7).map Char.toLower = strS "empresa" || c :: t = ['\n'] then []
    else c :: lazyAdhJust t

/-- Tail of the adherence pattern after its colon: whitespace, the digit
run of the score, a slash-ten marker, whitespace, a hyphen, whitespace
and the lazily matched justification. -/
def tryTailAdh (r : Str) : Option (Nat × Str) :=
  let (ws, r1) := r.span isPySpace
  if ws = [] then none
  else
    let (ds, r2) := r1.span Char.isDigit
    if ds = [] then none
    else
      match r2 with
      | '/' :: '1' :: '0' :: r3 =>
        let (ws2, r4) := r3.span isPySpace
        if ws2 = [] then none
        else
          match r4 with
          | '-' :: r5 =>
            let (ws3, r6) := r5.span isPySpace
            if ws3 = [] then none
            else some (natOfDigits ds, lazyAdhJust r6)
          | _ => none
      | _ => none

/-- The lazy gap of the adherence pattern: try the tail after each colon
in turn, extending the gap past a colon whose tail fails. -/
def lazyColon : Str → Option (Nat × Str)
  | [] => none
  | c :: t =>
    if c = ':' then
      match tryTailAdh t with
      | some res => some res
      | none => lazyColon t
    else lazyColon t

/-- One attempt of the adherence pattern at the current position: the
word Empresa case-insensitively, whitespace, the literal company number,
then the lazy colon gap and tail. -/
def tryMatchAdh (l : Str) (n : Nat) : Option (Nat × Str) :=
  if (l.take 7).map Char.toLower = strS "empresa" then
    let r1 := l.drop 7
    let (ws, r2) := r1.span isPySpace
    if ws = [] then none
    else if isPrefL (natStr n) r2 then lazyColon (r2.drop (natStr n).length)
    else none
  else none

/-- re.search for the adherence pattern of company number n: the
leftmost position where the whole pattern matches. -/
def adhSearch (n : Nat) : Str → Option (Nat × Str)
  | [] => none
  | c :: t =>
    match tryMatchAdh (c :: t) n with
    | some res => some res
    | none => adhSearch n t

/-- A per-company adherence entry: extracted score and justification. -/
structure AdhRes where
  score : Nat
  justification : Str
deriving DecidableEq, Repr

/-- The company name used both in the adherence prompt and as result
key, with the f-string fallback for unnamed companies. -/
def companyNameOf (c : Sol) (i : Nat) : Str :=
  get2 c (strS "Nome da empresa") (strS "Nome Empresa") (strS "Empresa " ++ natStr (i + 1))

/-- The per-company block appended to the adherence prompt. -/
def adhCompanyBlock (i : Nat) (c : Sol) : Str :=
  strS "\n            Empresa " ++ natStr (i + 1) ++ strS ": " ++ companyNameOf c i ++
    strS "\n            - Setor: " ++ getD c (strS "Setor") [] ++
    strS "\n            - Desafio priorizado: " ++
    get2 c (strS "Desafio priorizado") (strS "Categoria do Problema") [] ++
    strS "\n            - Maturidade em inovação: " ++
    get2 c (strS "Maturidade em inovação") (strS "Média diagnóstico inicial") [] ++
    strS "\n            - Necessidade específica: " ++
    get2 c (strS "Necessidade específica") (strS "Descrição do Problema") [] ++
    strS "\n            "

/-- The adherence prompt of calculate_solution_adherence. -/
def adhPrompt (solution : Sol) (sample : List Sol) : Str :=
  strS "\n        Você é um consultor especializado do Sebrae MG que analisa a aderência de soluções para empresas.\n        \n        SOLUÇÃO A SER ANALISADA:\n        - Nome: " ++
    getD solution nomeSolK [] ++
    strS "\n        - Tema: " ++ getD solution (strS "Tema") [] ++
    strS "\n        - Modalidade: " ++ getD solution (strS "Modalidade") [] ++
    strS "\n        - Descrição: " ++ getD solution (strS "Descrição") [] ++
    strS "\n        \n        Para cada empresa abaixo, avalie a aderência desta solução em uma escala de 0 a 10, onde:\n        - 0-3: Baixa aderência (a solução não atende às necessidades da empresa)\n        - 4-7: Média aderência (a solução atende parcialmente às necessidades da empresa)\n        - 8-10: Alta aderência (a solução atende muito bem às necessidades da empresa)\n        \n        Forneça também uma breve justificativa para cada avaliação.\n        \n        EMPRESAS:\n        " ++
    List.foldl (fun acc ic => acc ++ adhCompanyBlock ic.1 ic.2) [] sample.enum ++
    strS "\n        FORMATO DA RESPOSTA:\n        Para cada empresa, forneça:\n        - Empresa X: [Pontuação]/10 - [Justificativa]\n        "

/-- The sentinel justification of a company whose score could not be
extracted from the response text. -/
def sentinelJ : Str := strS "Não foi possível calcular a aderência."

/-- The justification used by the except branch when the service call
raises. -/
def errJ : Str := strS "Erro ao calcular."

/-- The adherence entry of company number i+1 extracted from the
response text: the parsed score and stripped justification on a match,
otherwise the defaulted score 0 with the sentinel justification. -/
def adhEntry (t : Str) (i : Nat) : AdhRes :=
  match adhSearch (i + 1) t with
  | some (s, j) => ⟨s, trimL j⟩
  | none => ⟨0, sentinelJ⟩

/-- calculate_solution_adherence from recommendation_system.py, with the
completion service abstracted as an oracle. The returned Python dict is
an association list in insertion order: one entry per sampled company
(at most ten), scores parsed by the adherence pattern, failures
defaulted to score 0 with the sentinel justification, and a raising
service call producing the except branch's error map. -/
def calculate_solution_adherence (svc : Str → Option Str) (solution : Sol)
    (companies : List Sol) : List (Str × AdhRes) :=
  let solution_name := getD solution nomeSolK []
  if solution_name = [] || companies = [] then []
  else
    let sample := companies.take 10
    let prompt := adhPrompt solution sample
    match svc prompt with
    | none =>
      sample.enum.foldl
        (fun m ic => insertA m (companyNameOf ic.2 ic.1) ⟨0, errJ⟩) []
    | some content =>
      let t := trimL content
      sample.enum.foldl
        (fun m ic => insertA m (companyNameOf ic.2 ic.1) (adhEntry t ic.1)) []

/-- Predicate of the specification's presentation claim: the adherence
map is ordered by non-increasing score. -/
def sortedDescB : List (Str × AdhRes) → Bool
  | [] => true
  | [_] => true
  | a :: b :: t => (b.2.score ≤ a.2.score) && sortedDescB (b :: t)

/-- A pandas cell in the solutions frames: a string or NaN. -/
abbrev Cell := Option Str

/-- One row of a DataFrame, an association of column name to cell. -/
abbrev Row := List (Str × Cell)

/-- The cell of a row at a column; an absent column reads as NaN. -/
def cellOf (r : Row) (c : Str) : Cell := (List.lookup c r).join

/-- A DataFrame: its column list and its rows. -/
structure DFrame where
  cols : List Str
  rows : List Row
deriving DecidableEq, Repr

/-- Rebuild a row on the given columns, pandas reindexing: missing
columns become NaN. -/
def reindex (cs : List Str) (r : Row) : Row := cs.map (fun c => (c, cellOf r c))

/-- Column selection df of a column list, as in df_excel = data of the
filtered excel_cols. -/
def selectCols (df : DFrame) (cs : List Str) : DFrame :=
  ⟨cs, df.rows.map (reindex cs)⟩

/-- Python df of col gets None: add an all-NaN column when absent. -/
def addColNone (df : DFrame) (c : Str) : DFrame :=
  if c ∈ df.cols then df
  else ⟨df.cols ++ [c], df.rows.map (fun r => r ++ [(c, none)])⟩

/-- pd.concat with ignore_index: the union of the column lists, and all
rows reindexed onto it. -/
def concatDF (d1 d2 : DFrame) : DFrame :=
  let cs := d1.cols ++ d2.cols.filter (fun c => !(d1.cols.contains c))
  ⟨cs, (d1.rows ++ d2.rows).map (reindex cs)⟩

/-- The canonical key 'Fonte' (source tag). -/
def fonteK : Str := strS "Fonte"

/-- The drop_duplicates subset key: the name and source cells, NaNs
compared equal as pandas does. -/
def keyOf (r : Row) : Cell × Cell := (cellOf r nomeSolK, cellOf r fonteK)

/-- drop_duplicates keep-first over the (name, source) key. -/
def dropDupRows : List Row → List (Cell × Cell) → List Row
  | [], _ => []
  | r :: t, seen =>
    if keyOf r ∈ seen then dropDupRows t seen
    else r :: dropDupRows t (keyOf r :: seen)

/-- df.drop_duplicates(subset of name and source). -/
def drop_duplicates (df : DFrame) : DFrame := ⟨df.cols, dropDupRows df.rows []⟩

/-- Python df of col gets the empty string for a missing required
column: the whole column is the empty string, not NaN. -/
def setColEmpty (df : DFrame) (c : Str) : DFrame :=
  if c ∈ df.cols then df
  else ⟨df.cols ++ [c], df.rows.map (fun r => r ++ [(c, some [])])⟩

/-- A column carries object dtype in this string-or-NaN universe exactly
when some cell holds a string. -/
def colHasValue (df : DFrame) (c : Str) : Bool :=
  df.rows.any (fun r => (cellOf r c).isSome)

/-- One row after the fillna loop: every NaN of an object-dtype column
becomes the empty string. -/
def fillRow (df : DFrame) (r : Row) : Row :=
  df.cols.map (fun c =>
    (c, match cellOf r c with
        | none => if colHasValue df c then some [] else none
        | some v => some v))

/-- The fillna loop of combine_solutions applied to every row. -/
def fillnaObj (df : DFrame) : DFrame :=
  ⟨df.cols, df.rows.map (fillRow df)⟩

/-- The canonical excel-side column list of combine_solutions. -/
def excelColsList : List Str :=
  [nomeSolK, strS "Descrição", strS "Cidade", strS "Regional",
   strS "Modalidade", strS "Tema", strS "Público-alvo", fonteK]

/-- The canonical web-side column list of combine_solutions. -/
def webColsList : List Str :=
  [nomeSolK, strS "Descrição", strS "Modalidade", strS "Tema", fonteK,
   strS "Link", strS "Data de coleta"]

/-- The required canonical columns guaranteed after the merge. -/
def requiredCols : List Str :=
  [nomeSolK, strS "Descrição", strS "Modalidade", strS "Tema", fonteK]

/-- The excel-side relevant columns actually present in the frame. -/
def excelColsOf (se : DFrame) : List Str :=
  excelColsList.filter (fun c => se.cols.contains c)

/-- The web-side relevant columns actually present in the frame. -/
def webColsOf (w : DFrame) : List Str :=
  webColsList.filter (fun c => w.cols.contains c)

/-- The source local df_excel2: the excel frame restricted to its
relevant columns and padded with the web side's missing columns. -/
def dfExcel2 (se w : DFrame) : DFrame :=
  (webColsOf w).foldl addColNone (selectCols se (excelColsOf se))

/-- The source local df_web2: the web frame restricted to its relevant
columns and padded with the excel side's missing columns. -/
def dfWeb2 (se w : DFrame) : DFrame :=
  (excelColsOf se).foldl addColNone (selectCols w (webColsOf w))

/-- The source local df_combined after pd.concat. -/
def combAll (se w : DFrame) : DFrame := concatDF (dfExcel2 se w) (dfWeb2 se w)

/-- The source local df_combined after drop_duplicates. -/
def dedupDF (se w : DFrame) : DFrame := drop_duplicates (combAll se w)

/-- The source local df_combined after the required-columns loop. -/
def postDF (se w : DFrame) : DFrame := requiredCols.foldl setColEmpty (dedupDF se w)

/-- The two-source branch of combine_solutions: both frames are
restricted to their relevant columns, padded with each other's missing
columns, concatenated, deduplicated on the exact (name, source) pair,
completed with required columns and NaN-filled with empty strings. -/
def mainMerge (se w : DFrame) : DFrame :=
  fillnaObj (postDF se w)

/-- combine_solutions from data_integration.py: with one source missing
or empty the other is returned unchanged; otherwise the two-source
merge branch runs. -/
def combine_solutions (solutions_data web_solutions : Option DFrame) : Option DFrame :=
  match solutions_data with
  | none => web_solutions
  | some se =>
    if se.rows = [] then web_solutions
    else
      match web_solutions with
      | none => some se
      | some w =>
        if w.rows = [] then some se
        else some (mainMerge se w)

/-- A radar-frame cell: a string or a numeric code. -/
inductive CellV where
  | vstr (s : Str)
  | vnum (n : Int)
deriving DecidableEq, Repr

/-- The fixed stage table of preprocess_radar_data. -/
def stage_mapping : List (Int × Str) :=
  [(1, strS "Nomear"), (2, strS "Elaborar"), (3, strS "Experimentar"),
   (4, strS "Evoluir"), (5, strS "Concluído")]

/-- The lambda mapped over the diagnostic-stage column: the stage table
value when the cell is a known numeric code, the cell itself otherwise
(Python stage_mapping.get(x, x)). -/
def stageMap (v : CellV) : CellV :=
  match v with
  | .vnum n =>
    match List.lookup n stage_mapping with
    | some s => .vstr s
    | none => v
  | .vstr _ => v

/-- The stage-column normalization of preprocess_radar_data, applied
cell-wise to the diagnostic-stage column. -/
def mapStageColumn (cells : List CellV) : List CellV := cells.map stageMap

/-- A catalog with one solution named S. -/
def solS : Sol := [(nomeSolK, strS "S")]

/-- Completion oracle returning a well-formed strategy-1 response. -/
def svcOkS : Str → Option Str := fun _ => some (strS "1. [S]: ok")

/-- Completion oracle returning a response on which strategy 2 raises
IndexError (colon-space before any dot-space on a digit-led line). -/
def svcCrash : Str → Option Str := fun _ => some (strS "1: x. y")

/-- Completion oracle returning adherence scores 2 then 9. -/
def svc29 : Str → Option Str := fun _ => some (strS "Empresa 1: 2/10 - a\nEmpresa 2: 9/10 - b")

/-- Completion oracle returning the out-of-range adherence score 15. -/
def svc15 : Str → Option Str := fun _ => some (strS "Empresa 1: 15/10 - x")

/-- Company data with name A-B and challenge C. -/
def cdAB : Sol := [(strS "Nome da empresa", strS "A-B"), (strS "Desafio priorizado", strS "C")]

/-- Company data with name A and challenge B-C. -/
def cdA : Sol := [(strS "Nome da empresa", strS "A"), (strS "Desafio priorizado", strS "B-C")]

/-- A company profile named A. -/
def cmpA : Sol := [(strS "Nome da empresa", strS "A")]

/-- A company profile named B. -/
def cmpB : Sol := [(strS "Nome da empresa", strS "B")]

/-- A solution record named Curso A. -/
def solCursoA : Sol := [(nomeSolK, strS "Curso A")]

/-- A solution record named Curso. -/
def solCurso : Sol := [(nomeSolK, strS "Curso")]

/-- The empty system state: empty cache, no service calls yet. -/
def st0 : SysState := ⟨[], 0⟩

/-- The empty DataFrame. -/
def emptyDF : DFrame := ⟨[], []⟩

/-- The case-insensitively normalized (name, source) pair of a row. -/
def ciPair (r : Row) : Cell × Cell :=
  ((cellOf r nomeSolK).map lowerS, (cellOf r fonteK).map lowerS)

/-- Excel-side frame whose single record is named A with source S. -/
def seC4 : DFrame :=
  ⟨[nomeSolK, fonteK], [[(nomeSolK, some (strS "A")), (fonteK, some (strS "S"))]]⟩

/-- Web-side frame whose single record is named a (lower case) with the
same source S. -/
def wC4 : DFrame :=
  ⟨[nomeSolK, fonteK], [[(nomeSolK, some (strS "a")), (fonteK, some (strS "S"))]]⟩

/-- Excel-side frame with one record named A, source S1 and a null
description. -/
def seC5 : DFrame :=
  ⟨[nomeSolK, fonteK, strS "Descrição"],
   [[(nomeSolK, some (strS "A")), (fonteK, some (strS "S1")), (strS "Descrição", none)]]⟩

/-- Web-side frame with one record named A, source S2 and description
good. -/
def wC5 : DFrame :=
  ⟨[nomeSolK, fonteK, strS "Descrição"],
   [[(nomeSolK, some (strS "A")), (fonteK, some (strS "S2")),
     (strS "Descrição", some (strS "good"))]]⟩

/-- The key list of an association list. -/
def keysA {α : Type} (d : List (Str × α)) : List Str := d.map Prod.fst

/-- Key-level effect of a dict insertion: keep the key list when the key
is already present, append it otherwise. -/
def insertK (ks : List Str) (k : Str) : List Str :=
  if k ∈ ks then ks else ks ++ [k]

/-- Field provenance between two rows: every cell of the new row equals
the corresponding cell of the originating row, except that a null
original cell may have become the empty string. In particular no value
can have been copied in from a different record. -/
def cellRel (orig new : Row) : Prop :=
  ∀ c : Str, cellOf new c = cellOf orig c ∨
    (cellOf orig c = none ∧ cellOf new c = some [])

/-- Rectangularity of a frame: every row key is a frame column. -/
def rowKeysSub (df : DFrame) : Prop :=
  ∀ r ∈ df.rows, ∀ kv ∈ r, kv.1 ∈ df.cols

/-- C9: the stage normalizer maps each code 1..5 to exactly one of the
five fixed stage names, and every other cell value — other numeric
codes and string cells alike — deterministically to itself (the
placeholder behaviour of stage_mapping.get(x, x)). -/
theorem stage_mapping_totality :
    (stageMap (CellV.vnum 1) = CellV.vstr (strS "Nomear") ∧
     stageMap (CellV.vnum 2) = CellV.vstr (strS "Elaborar") ∧
     stageMap (CellV.vnum 3) = CellV.vstr (strS "Experimentar") ∧
     stageMap (CellV.vnum 4) = CellV.vstr (strS "Evoluir") ∧
     stageMap (CellV.vnum 5) = CellV.vstr (strS "Concluído")) ∧
    (∀ n : Int, n < 1 ∨ 5 < n → stageMap (CellV.vnum n) = CellV.vnum n) ∧
    (∀ s : Str, stageMap (CellV.vstr s) = CellV.vstr s) := by
  refine ⟨⟨by decide, by decide, by decide, by decide, by decide⟩, ?_, fun s => rfl⟩
  intro n h
  have h1 : (n == (1 : Int)) = false := beq_eq_false_iff_ne.mpr (by omega)
  have h2 : (n == (2 : Int)) = false := beq_eq_false_iff_ne.mpr (by omega)
  have h3 : (n == (3 : Int)) = false := beq_eq_false_iff_ne.mpr (by omega)
  have h4 : (n == (4 : Int)) = false := beq_eq_false_iff_ne.mpr (by omega)
  have h5 : (n == (5 : Int)) = false := beq_eq_false_iff_ne.mpr (by omega)
  simp [stageMap, stage_mapping, List.lookup, h1, h2, h3, h4, h5]

/-- Witness for the stage-mapping theorem at the unknown code 7. -/
theorem stage_mapping_totality_witness :
    stageMap (CellV.vnum 7) = CellV.vnum 7 :=
  stage_mapping_totality.2.1 7 (by decide)

/-- C10: the cache key is a non-injective concatenation — the distinct
company pairs (A-B, C) and (A, B-C) collide on the key A-B-C, so the
second request is answered from the first request's cache entry without
a further completion-service invocation. -/
theorem cache_key_collision :
    (get2 cdAB (strS "Nome da empresa") (strS "Nome Empresa") [],
      get2 cdAB (strS "Desafio priorizado") (strS "Categoria do Problema") []) ≠
      (get2 cdA (strS "Nome da empresa") (strS "Nome Empresa") [],
        get2 cdA (strS "Desafio priorizado") (strS "Categoria do Problema") []) ∧
    cacheKey cdAB = cacheKey cdA ∧
    (get_recommendations svcOkS cdAB [solS] [] st0).2.calls = 1 ∧
    (get_recommendations svcOkS cdA [solS] []
        (get_recommendations svcOkS cdAB [solS] [] st0).2).1 =
      (get_recommendations svcOkS cdAB [solS] [] st0).1 ∧
    (get_recommendations svcOkS cdA [solS] []
        (get_recommendations svcOkS cdAB [solS] [] st0).2).2.calls = 1 := by
  decide

/-- C1 counterexample: with a completion service that answers every
prompt with the text on which strategy 2 of the parser raises, two
identical requests for the same key invoke the service twice — nothing
is cached, refuting at-most-one-invocation per key. -/
theorem cache_single_flight_cex :
    ¬ ((runCalls svcCrash [⟨cdA, [solS], []⟩, ⟨cdA, [solS], []⟩] st0).2.calls ≤ 1) := by
  decide

/-- C2 counterexample: with scores 2 then 9 the adherence map keeps the
companies' input order, so it is not ordered by descending score. -/
theorem adherence_ordering_cex :
    sortedDescB (calculate_solution_adherence svc29 solS [cmpA, cmpB]) = false ∧
    (calculate_solution_adherence svc29 solS [cmpA, cmpB]).map (fun e => e.2.score) =
      [2, 9] := by
  decide

/-- C3 counterexample: the response text scoring company 1 as 15/10
produces the out-of-range score 15 verbatim — neither clamped into
the range nor replaced by the defaulted 0 with the sentinel. -/
theorem adherence_range_cex :
    calculate_solution_adherence svc15 solS [cmpA] =
      [(strS "A", ⟨15, strS "x"⟩)] ∧ ¬ (15 ≤ 10) ∧ strS "x" ≠ sentinelJ := by
  decide

/-- C4 counterexample: records named A and a with the same source both
survive the merge, because drop_duplicates compares the (name, source)
pair case-sensitively; the case-insensitively normalized pairs coincide. -/
theorem dedup_ci_cex :
    combine_solutions (some seC4) (some wC4) ≠ none ∧
    ¬ ((((combine_solutions (some seC4) (some wC4)).getD emptyDF).rows.map ciPair).Nodup) := by
  decide

/-- C5 counterexample: the merged output keeps a record whose
description is the empty string even though another record with the
same solution name carries the description good — no backfill happens. -/
theorem merge_backfill_cex :
    combine_solutions (some seC5) (some wC5) ≠ none ∧
    ((combine_solutions (some seC5) (some wC5)).getD emptyDF).rows.length = 2 ∧
    cellOf (((combine_solutions (some seC5) (some wC5)).getD emptyDF).rows.getD 0 []) nomeSolK =
      cellOf (((combine_solutions (some seC5) (some wC5)).getD emptyDF).rows.getD 1 []) nomeSolK ∧
    cellOf (((combine_solutions (some seC5) (some wC5)).getD emptyDF).rows.getD 0 [])
        (strS "Descrição") = some [] ∧
    cellOf (((combine_solutions (some seC5) (some wC5)).getD emptyDF).rows.getD 1 [])
        (strS "Descrição") = some (strS "good") := by
  decide

/-- C6 counterexample: on the text 1 colon x dot y all of strategy 1
finds nothing, strategy 2 raises IndexError (modelled none), and the
parser returns no list at all — although strategy 3 would have produced
a record, so the claimed cascade postcondition fails. -/
theorem parser_cascade_cex :
    parse_recommendations (strS "1: x. y") [solS] = none ∧
    strat1 (strS "1: x. y") (buildDict [solS]) = [] ∧
    strat3 (strS "1: x. y") (buildDict [solS]) ≠ [] := by
  decide

/-- Lookup at the head key of an association list. -/
theorem lookupc_self {α : Type} (k : Str) (v : α) (t : List (Str × α)) :
    List.lookup k ((k, v) :: t) = some v := by
  rw [List.lookup_cons, beq_self_eq_true]

/-- Lookup skips a head entry with a different key. -/
theorem lookupc_ne {α : Type} {k k0 : Str} (v0 : α) (t : List (Str × α)) (h : k ≠ k0) :
    List.lookup k ((k0, v0) :: t) = List.lookup k t := by
  rw [List.lookup_cons, beq_false_of_ne h]

/-- A lookup succeeds exactly when the key occurs in the key list. -/
theorem lookup_isSome_iff {α : Type} (k : Str) (d : List (Str × α)) :
    (List.lookup k d).isSome ↔ k ∈ keysA d := by
  induction d with
  | nil => simp [keysA]
  | cons kv t ih =>
    obtain ⟨k0, v0⟩ := kv
    by_cases h : k = k0
    · subst h
      rw [lookupc_self]
      exact ⟨fun _ => List.mem_cons_self k (keysA t), fun _ => rfl⟩
    · rw [lookupc_ne v0 t h, ih]
      exact ⟨fun hm => List.mem_cons_of_mem k0 hm,
        fun hm => (List.mem_cons.mp hm).resolve_left h⟩

/-- A successful lookup is preserved by appending entries. -/
theorem lookup_append_left {α : Type} (k : Str) (d e : List (Str × α)) (v : α)
    (h : List.lookup k d = some v) : List.lookup k (d ++ e) = some v := by
  induction d with
  | nil => exact Option.noConfusion h
  | cons kv t ih =>
    obtain ⟨k0, v0⟩ := kv
    by_cases hk : k = k0
    · subst hk
      rw [lookupc_self] at h
      rw [List.cons_append, lookupc_self]
      exact h
    · rw [lookupc_ne v0 t hk] at h
      rw [List.cons_append, lookupc_ne v0 (t ++ e) hk]
      exact ih h

/-- A failed lookup defers to the appended entries. -/
theorem lookup_append_right {α : Type} (k : Str) (d e : List (Str × α))
    (h : List.lookup k d = none) : List.lookup k (d ++ e) = List.lookup k e := by
  induction d with
  | nil => simp
  | cons kv t ih =>
    obtain ⟨k0, v0⟩ := kv
    by_cases hk : k = k0
    · subst hk; rw [lookupc_self] at h; exact Option.noConfusion h
    · rw [lookupc_ne v0 t hk] at h
      rw [List.cons_append, lookupc_ne v0 (t ++ e) hk]
      exact ih h

/-- The in-place overwrite of a present key makes lookup return the new
value. -/
theorem lookup_map_overwrite {α : Type} (k : Str) (v : α) (d : List (Str × α))
    (h : (List.lookup k d).isSome) :
    List.lookup k (d.map (fun kv => if kv.1 = k then (kv.1, v) else kv)) = some v := by
  induction d with
  | nil => simp at h
  | cons kv t ih =>
    obtain ⟨k0, v0⟩ := kv
    by_cases hk : k = k0
    · subst hk
      simp only [List.map_cons, if_pos rfl]
      exact lookupc_self _ v _
    · have hne : ¬ (k0 = k) := fun hh => hk hh.symm
      rw [lookupc_ne v0 t hk] at h
      simp only [List.map_cons]
      rw [if_neg hne, lookupc_ne v0 _ hk]
      exact ih h

/-- Looking up the inserted key finds the inserted value. -/
theorem lookup_insertA_self {α : Type} (d : List (Str × α)) (k : Str) (v : α) :
    List.lookup k (insertA d k v) = some v := by
  unfold insertA
  by_cases h : (List.lookup k d).isSome
  · rw [if_pos h]
    exact lookup_map_overwrite k v d h
  · rw [if_neg h]
    have hn : List.lookup k d = none := Option.not_isSome_iff_eq_none.mp h
    rw [lookup_append_right k d _ hn]
    exact lookupc_self k v []

/-- Key-list effect of a dict insertion. -/
theorem keysA_insertA {α : Type} (d : List (Str × α)) (k : Str) (v : α) :
    keysA (insertA d k v) = insertK (keysA d) k := by
  unfold insertA insertK
  by_cases h : (List.lookup k d).isSome
  · rw [if_pos h, if_pos ((lookup_isSome_iff k d).mp h)]
    unfold keysA
    rw [List.map_map]
    apply List.map_congr_left
    intro kv _
    by_cases hk : kv.1 = k <;> simp [hk]
  · rw [if_neg h, if_neg (fun hm => h ((lookup_isSome_iff k d).mpr hm))]
    simp [keysA]

/-- Dict insertion preserves distinctness of the keys. -/
theorem keysA_nodup_insertA {α : Type} (d : List (Str × α)) (k : Str) (v : α)
    (h : (keysA d).Nodup) : (keysA (insertA d k v)).Nodup := by
  rw [keysA_insertA]
  unfold insertK
  by_cases hm : k ∈ keysA d
  · rwa [if_pos hm]
  · rw [if_neg hm]
    simp [List.nodup_append, h, hm]

/-- The solutions dict of parse_recommendations has distinct keys. -/
theorem buildDict_keys_nodup (sols : List Sol) : (keysA (buildDict sols)).Nodup := by
  unfold buildDict
  have h : ∀ (l : List Sol) (d : List (Str × Sol)), (keysA d).Nodup →
      (keysA (l.foldl (fun d sol => insertA d (lowerS (getD sol nomeSolK [])) sol) d)).Nodup := by
    intro l
    induction l with
    | nil => intro d hd; exact hd
    | cons a t ih => intro d hd; exact ih _ (keysA_nodup_insertA _ _ _ hd)
  exact h sols [] (by simp [keysA])

/-- With distinct keys, membership determines the lookup result. -/
theorem lookup_of_mem_nodup {α : Type} (d : List (Str × α)) (k : Str) (v : α)
    (hnd : (keysA d).Nodup) (hm : (k, v) ∈ d) : List.lookup k d = some v := by
  induction d with
  | nil => cases hm
  | cons kv t ih =>
    obtain ⟨k0, v0⟩ := kv
    simp only [keysA, List.map_cons, List.nodup_cons] at hnd
    rcases List.mem_cons.mp hm with heq | hmt
    · have h1 : k = k0 := congrArg Prod.fst heq
      have h2 : v = v0 := congrArg Prod.snd heq
      subst h1; subst h2
      exact lookupc_self k v t
    · have hk : k ≠ k0 := by
        rintro rfl
        exact hnd.1 (List.mem_map.mpr ⟨(k, v), hmt, rfl⟩)
      rw [lookupc_ne v0 t hk]
      exact ih hnd.2 hmt

/-- C7: when the candidate's normalized name equals a canonical dict key
(an exact match exists), the resolver returns that entry with the exact
confidence flag — fuzzy matching is never consulted. -/
theorem resolver_exact_preference (cand : Str) (sols : List Sol) (k : Str) (sol : Sol)
    (hmem : (k, sol) ∈ buildDict sols) (hk : k = lowerS (trimL cand)) :
    matchSolution (lowerS (trimL cand)) (buildDict sols) = some (sol, true) := by
  subst hk
  have h := lookup_of_mem_nodup _ _ _ (buildDict_keys_nodup sols) hmem
  unfold matchSolution
  rw [h]

/-- Witness for the resolver preference: the catalog holds Curso A and
Curso; the candidate CURSO A has the exact match Curso A even though
Curso is a substring fuzzy match; the exact one is returned. -/
theorem resolver_exact_preference_witness :
    ((strS "curso a", solCursoA) ∈ buildDict [solCursoA, solCurso]) ∧
    (isSubL (strS "curso") (strS "curso a") = true) ∧
    matchSolution (lowerS (trimL (strS " CURSO A "))) (buildDict [solCursoA, solCurso]) =
      some (solCursoA, true) :=
  ⟨by decide, by decide,
    resolver_exact_preference (strS " CURSO A ") [solCursoA, solCurso]
      (strS "curso a") solCursoA (by decide) (by decide)⟩

/-- C8: a strategy-1 candidate whose name resolves neither exactly nor
fuzzily is still turned into a record — flagged not exact and carrying
the synthetic one-field solution record with the free-text name — and
strategy 1 emits exactly one record per extracted candidate, so no
candidate is dropped. -/
theorem unresolved_retention (sols : List Sol) (num nm js text : Str)
    (h : matchSolution (lowerS (trimL nm)) (buildDict sols) = none) :
    mkRec1 (buildDict sols) (num, nm, js) =
      { number := trimL num, solution_name := trimL nm, justification := trimL js,
        exact_match := false, solution_data := [(nomeSolK, trimL nm)] } ∧
    (strat1 text (buildDict sols)).length = (findallRecs text).length := by
  constructor
  · simp only [mkRec1]
    rw [h]
  · simp [strat1]

/-- Witness for unresolved retention: the name Zzz matches nothing in
the one-entry catalog and is retained as an unresolved record. -/
theorem unresolved_retention_witness :
    mkRec1 (buildDict [solCurso]) (strS "1", strS "Zzz", strS "j") =
      { number := trimL (strS "1"), solution_name := trimL (strS "Zzz"),
        justification := trimL (strS "j"), exact_match := false,
        solution_data := [(nomeSolK, trimL (strS "Zzz"))] } ∧
    (strat1 (strS "1. [Zzz]: j") (buildDict [solCurso])).length =
      (findallRecs (strS "1. [Zzz]: j")).length :=
  unresolved_retention [solCurso] (strS "1") (strS "Zzz") (strS "j")
    (strS "1. [Zzz]: j") (by decide)

/-- C6 (amended): cascade postcondition of parse_recommendations — the
first non-empty strategy wins and the result is truncated to five
records, except that an IndexError in strategy 2 (modelled none) makes
the whole parse raise; any returned list has at most five records. -/
theorem parse_cascade (text : Str) (sols : List Sol) :
    (strat1 text (buildDict sols) ≠ [] →
      parse_recommendations text sols = some ((strat1 text (buildDict sols)).take 5)) ∧
    (strat1 text (buildDict sols) = [] → strat2 text (buildDict sols) = none →
      parse_recommendations text sols = none) ∧
    (∀ r2, strat1 text (buildDict sols) = [] →
      strat2 text (buildDict sols) = some r2 → r2 ≠ [] →
      parse_recommendations text sols = some (r2.take 5)) ∧
    (strat1 text (buildDict sols) = [] → strat2 text (buildDict sols) = some [] →
      parse_recommendations text sols = some ((strat3 text (buildDict sols)).take 5)) ∧
    (∀ l, parse_recommendations text sols = some l → l.length ≤ 5) := by
  have hcase : ∀ (l : List RecRec), l ≠ [] → l.isEmpty = false := by
    intro l hl
    cases l with
    | nil => exact absurd rfl hl
    | cons a t => rfl
  refine ⟨?_, ?_, ?_, ?_, ?_⟩
  · intro h
    simp [parse_recommendations, hcase _ h]
  · intro h1 h2
    simp [parse_recommendations, h1, h2]
  · intro r2 h1 h2 hne
    simp [parse_recommendations, h1, h2, hcase _ hne]
  · intro h1 h2
    simp [parse_recommendations, h1, h2]
  · intro l hl
    simp only [parse_recommendations] at hl
    by_cases h1 : (strat1 text (buildDict sols)).isEmpty
    · rw [if_pos h1] at hl
      cases h2 : strat2 text (buildDict sols) with
      | none =>
        rw [h2] at hl
        exact Option.noConfusion hl
      | some r2 =>
        rw [h2] at hl
        have hl2 : (if r2.isEmpty = true then some ((strat3 text (buildDict sols)).take 5)
            else some (r2.take 5)) = some l := hl
        by_cases h3 : r2.isEmpty = true
        · rw [if_pos h3] at hl2
          rw [← Option.some.inj hl2]
          exact List.length_take_le 5 _
        · rw [if_neg h3] at hl2
          rw [← Option.some.inj hl2]
          exact List.length_take_le 5 _
    · rw [if_neg h1] at hl
      rw [← Option.some.inj hl]
      exact List.length_take_le 5 _

/-- Witness for the cascade postcondition: a response in the strict
strategy-1 format takes the first branch. -/
theorem parse_cascade_witness :
    parse_recommendations (strS "1. [S]: ok") [solS] =
      some ((strat1 (strS "1. [S]: ok") (buildDict [solS])).take 5) :=
  (parse_cascade (strS "1. [S]: ok") [solS]).1 (by decide)

/-- A generated prompt is never the empty string: it starts with the
fixed header. -/
theorem prompt_ne_nil (cd : Sol) (sols sched : List Sol) (p : Str)
    (h : generate_recommendation_prompt cd sols sched = some p) : p ≠ [] := by
  by_cases hs : sols = []
  · simp [generate_recommendation_prompt, hs] at h
  · simp only [generate_recommendation_prompt, if_neg hs] at h
    have hp := Option.some.inj h
    intro hnil
    rw [hnil] at hp
    have hlen := congrArg List.length hp
    simp only [List.length_append, List.length_nil] at hlen
    have hph : 0 < promptHeader.length := by decide
    omega

/-- A request whose key is cached returns the cached list and leaves the
state unchanged — in particular no completion-service invocation. -/
theorem get_recs_cached (svc : Str → Option Str) (cd : Sol) (sols sched : List Sol)
    (st : SysState) (v : List RecRec) (hcd : cd ≠ []) (hsols : sols ≠ [])
    (hv : List.lookup (cacheKey cd) st.cache = some v) :
    get_recommendations svc cd sols sched st = (v, st) := by
  simp only [get_recommendations]
  rw [if_neg hcd, if_neg hsols, hv]

/-- A cache miss whose service call and parse both succeed returns the
parsed list, caches it under the key and counts one invocation. -/
theorem get_recs_miss_success (svc : Str → Option Str) (cd : Sol) (sols sched : List Sol)
    (st : SysState) (hcd : cd ≠ []) (hsols : sols ≠ [])
    (hmiss : List.lookup (cacheKey cd) st.cache = none)
    (hsvc : ∀ p, ∃ t, svc p = some t ∧ ∀ ss, parse_recommendations (trimL t) ss ≠ none) :
    ∃ recs, get_recommendations svc cd sols sched st =
      (recs, { cache := insertA st.cache (cacheKey cd) recs, calls := st.calls + 1 }) := by
  simp only [get_recommendations]
  rw [if_neg hcd, if_neg hsols]
  simp only [hmiss]
  cases hg : generate_recommendation_prompt cd sols sched with
  | none => simp [generate_recommendation_prompt, hsols] at hg
  | some p =>
    simp only [hg]
    rw [if_neg (prompt_ne_nil cd sols sched p hg)]
    obtain ⟨t, hst, hparse⟩ := hsvc p
    simp only [hst]
    cases hpr : parse_recommendations (trimL t) sols with
    | none => exact absurd hpr (hparse sols)
    | some recs =>
      simp only [hpr]
      exact ⟨recs, rfl⟩

/-- Every request of a batch whose key is already cached returns the
cached value and changes nothing. -/
theorem runCalls_cached (svc : Str → Option Str) (l : List Req) (st : SysState)
    (k : Str) (v : List RecRec)
    (hl : ∀ r ∈ l, r.cd ≠ [] ∧ r.sols ≠ [] ∧ cacheKey r.cd = k)
    (hv : List.lookup k st.cache = some v) :
    runCalls svc l st = (List.replicate l.length v, st) := by
  induction l with
  | nil => rfl
  | cons a t ih =>
    obtain ⟨hcd, hsols, hka⟩ := hl a (List.mem_cons_self a t)
    have hstep : get_recommendations svc a.cd a.sols a.sched st = (v, st) :=
      get_recs_cached svc a.cd a.sols a.sched st v hcd hsols (by rw [hka]; exact hv)
    simp only [runCalls, hstep]
    rw [ih (fun r hr => hl r (List.mem_cons_of_mem a hr))]
    simp [List.replicate_succ]

/-- C1 (amended): when the completion service and the parser succeed,
a batch of requests sharing one uncached key performs exactly one
service invocation — the first request computes and caches, and every
request returns that same first result. -/
theorem cache_single_flight_success (svc : Str → Option Str) (r0 : Req) (rest : List Req)
    (st : SysState) (k : Str)
    (hk : ∀ r ∈ r0 :: rest, r.cd ≠ [] ∧ r.sols ≠ [] ∧ cacheKey r.cd = k)
    (hmiss : List.lookup k st.cache = none)
    (hsvc : ∀ p, ∃ t, svc p = some t ∧ ∀ ss, parse_recommendations (trimL t) ss ≠ none) :
    (runCalls svc (r0 :: rest) st).2.calls = st.calls + 1 ∧
    (runCalls svc (r0 :: rest) st).1 =
      List.replicate (r0 :: rest).length
        (get_recommendations svc r0.cd r0.sols r0.sched st).1 := by
  obtain ⟨hcd0, hsols0, hk0⟩ := hk r0 (List.mem_cons_self r0 rest)
  obtain ⟨recs, hstep⟩ :=
    get_recs_miss_success svc r0.cd r0.sols r0.sched st hcd0 hsols0
      (by rw [hk0]; exact hmiss) hsvc
  have hlook : List.lookup k
      ({ cache := insertA st.cache (cacheKey r0.cd) recs,
         calls := st.calls + 1 } : SysState).cache = some recs := by
    rw [← hk0]
    exact lookup_insertA_self st.cache (cacheKey r0.cd) recs
  have hrest := runCalls_cached svc rest
    { cache := insertA st.cache (cacheKey r0.cd) recs, calls := st.calls + 1 } k recs
    (fun r hr => hk r (List.mem_cons_of_mem r0 hr)) hlook
  constructor
  · simp only [runCalls, hstep, hrest]
  · simp only [runCalls, hstep, hrest]
    simp [List.replicate_succ]

/-- The canned response 1. [S]: ok parses to a non-empty list for every
catalog, so it never raises. -/
theorem parse_okS_ne_none (ss : List Sol) :
    parse_recommendations (trimL (strS "1. [S]: ok")) ss ≠ none := by
  have h1 : findallRecs (trimL (strS "1. [S]: ok")) =
      [(strS "1", strS "S", strS "ok")] := by decide
  simp [parse_recommendations, strat1, h1]

/-- Witness for the amended single-flight theorem: two identical
requests with a parsable response perform one invocation and return the
same list twice. -/
theorem cache_single_flight_success_witness :
    (runCalls svcOkS [⟨cdA, [solS], []⟩, ⟨cdA, [solS], []⟩] st0).2.calls = st0.calls + 1 ∧
    (runCalls svcOkS [⟨cdA, [solS], []⟩, ⟨cdA, [solS], []⟩] st0).1 =
      List.replicate 2 (get_recommendations svcOkS cdA [solS] [] st0).1 :=
  cache_single_flight_success svcOkS ⟨cdA, [solS], []⟩ [⟨cdA, [solS], []⟩] st0
    (cacheKey cdA) (by decide) rfl
    (fun p => ⟨strS "1. [S]: ok", rfl, parse_okS_ne_none⟩)

/-- Membership in the key list survives dict insertion. -/
theorem keysA_foldl_insertA {α β : Type} (key : β → Str) (val : β → α) (l : List β)
    (m : List (Str × α)) :
    keysA (l.foldl (fun acc b => insertA acc (key b) (val b)) m) =
      l.foldl (fun ks b => insertK ks (key b)) (keysA m) := by
  induction l generalizing m with
  | nil => rfl
  | cons a t ih =>
    simp only [List.foldl_cons]
    rw [ih, keysA_insertA]

/-- C2 (amended): the adherence map is keyed in the companies' input
order — one key per sampled company in first-occurrence order, in both
the success and the service-failure branch; no sorting by score exists. -/
theorem adherence_input_order (svc : Str → Option Str) (solution : Sol)
    (companies : List Sol)
    (hname : getD solution nomeSolK [] ≠ []) (hcs : companies ≠ []) :
    keysA (calculate_solution_adherence svc solution companies) =
      ((companies.take 10).enum).foldl
        (fun ks ic => insertK ks (companyNameOf ic.2 ic.1)) [] := by
  simp only [calculate_solution_adherence]
  rw [if_neg (by simp [hname, hcs])]
  cases svc (adhPrompt solution (companies.take 10)) with
  | none =>
    exact keysA_foldl_insertA (fun (ic : Nat × Sol) => companyNameOf ic.2 ic.1)
      (fun (_ : Nat × Sol) => (⟨0, errJ⟩ : AdhRes)) _ []
  | some content =>
    exact keysA_foldl_insertA (fun (ic : Nat × Sol) => companyNameOf ic.2 ic.1)
      (fun (ic : Nat × Sol) => adhEntry (trimL content) ic.1) _ []

/-- Witness for the input-order theorem on two concrete companies. -/
theorem adherence_input_order_witness :
    keysA (calculate_solution_adherence svc29 solS [cmpA, cmpB]) =
      (([cmpA, cmpB].take 10).enum).foldl
        (fun ks ic => insertK ks (companyNameOf ic.2 ic.1)) [] :=
  adherence_input_order svc29 solS [cmpA, cmpB] (by decide) (by decide)

/-- A member of a dict after an insertion was already present or carries
the inserted value. -/
theorem mem_insertA {α : Type} (d : List (Str × α)) (k : Str) (v : α) (k2 : Str) (v2 : α)
    (h : (k2, v2) ∈ insertA d k v) : (k2, v2) ∈ d ∨ v2 = v := by
  unfold insertA at h
  by_cases hs : (List.lookup k d).isSome
  · rw [if_pos hs] at h
    obtain ⟨kv, hkv, heq⟩ := List.mem_map.mp h
    by_cases hk : kv.1 = k
    · rw [if_pos hk] at heq
      right
      exact (congrArg Prod.snd heq).symm
    · rw [if_neg hk] at heq
      left
      exact heq ▸ hkv
  · rw [if_neg hs] at h
    rcases List.mem_append.mp h with hm | hm
    · exact Or.inl hm
    · right
      rcases List.mem_singleton.mp hm with heq
      exact congrArg Prod.snd heq
/-- Every value present after a fold of dict insertions is an initial
value or one of the inserted values. -/
theorem mem_foldl_insertA {α β : Type} (key : β → Str) (val : β → α) (l : List β)
    (m : List (Str × α)) (k : Str) (v : α)
    (h : (k, v) ∈ l.foldl (fun acc b => insertA acc (key b) (val b)) m) :
    (k, v) ∈ m ∨ ∃ b ∈ l, v = val b := by
  induction l generalizing m with
  | nil => exact Or.inl h
  | cons a t ih =>
    simp only [List.foldl_cons] at h
    rcases ih _ h with hm | ⟨b, hb, hv⟩
    · rcases mem_insertA _ _ _ _ _ hm with hm2 | hv
      · exact Or.inl hm2
      · exact Or.inr ⟨a, List.mem_cons_self a t, hv⟩
    · exact Or.inr ⟨b, List.mem_cons_of_mem a hb, hv⟩

/-- C3 (amended): every adherence entry is either a defaulted score 0
with one of the two fixed failure justifications, or carries exactly the
integer extracted by the adherence pattern from the service's response
text — used verbatim, with no clamping into the 0..10 range. -/
theorem adherence_score_provenance (svc : Str → Option Str) (solution : Sol)
    (companies : List Sol) (nm : Str) (r : AdhRes)
    (hmem : (nm, r) ∈ calculate_solution_adherence svc solution companies) :
    r = ⟨0, errJ⟩ ∨ r = ⟨0, sentinelJ⟩ ∨
    ∃ t i j, svc (adhPrompt solution (companies.take 10)) = some t ∧
      adhSearch i (trimL t) = some (r.score, j) ∧ r = ⟨r.score, trimL j⟩ := by
  simp only [calculate_solution_adherence] at hmem
  by_cases hg : (getD solution nomeSolK [] = [] || companies = []) = true
  · rw [if_pos hg] at hmem
    cases hmem
  · rw [if_neg hg] at hmem
    cases hsvc : svc (adhPrompt solution (companies.take 10)) with
    | none =>
      rw [hsvc] at hmem
      rcases mem_foldl_insertA _ _ _ _ _ _ hmem with hm | ⟨b, _, hv⟩
      · cases hm
      · exact Or.inl hv
    | some content =>
      rw [hsvc] at hmem
      rcases mem_foldl_insertA _ _ _ _ _ _ hmem with hm | ⟨b, _, hv⟩
      · cases hm
      · cases hse : adhSearch (b.1 + 1) (trimL content) with
        | none =>
          right; left
          rw [hv]
          simp [adhEntry, hse]
        | some sj =>
          obtain ⟨s, j⟩ := sj
          right; right
          refine ⟨content, b.1 + 1, j, rfl, ?_, ?_⟩
          · rw [hv]
            simp [adhEntry, hse]
          · rw [hv]
            simp [adhEntry, hse]

/-- Witness for the score-provenance theorem: the 15/10 response entry
is characterized as the verbatim parsed score 15. -/
theorem adherence_score_provenance_witness :
    ((strS "A", (⟨15, strS "x"⟩ : AdhRes)) ∈
      calculate_solution_adherence svc15 solS [cmpA]) ∧
    ((⟨15, strS "x"⟩ : AdhRes) = ⟨0, errJ⟩ ∨ (⟨15, strS "x"⟩ : AdhRes) = ⟨0, sentinelJ⟩ ∨
      ∃ t i j, svc15 (adhPrompt solS ([cmpA].take 10)) = some t ∧
        adhSearch i (trimL t) = some ((⟨15, strS "x"⟩ : AdhRes).score, j) ∧
        (⟨15, strS "x"⟩ : AdhRes) = ⟨(⟨15, strS "x"⟩ : AdhRes).score, trimL j⟩) :=
  ⟨by decide,
    adherence_score_provenance svc15 solS [cmpA] (strS "A") ⟨15, strS "x"⟩ (by decide)⟩

/-- Cell of a column-indexed rebuild: the generator value inside the
column list, NaN outside. -/
theorem cellOf_mapCols (cs : List Str) (F : Str → Cell) (x : Str) :
    cellOf (cs.map (fun c => (c, F c))) x = if x ∈ cs then F x else none := by
  induction cs with
  | nil => simp [cellOf]
  | cons c0 t ih =>
    simp only [List.map_cons]
    by_cases hx : x = c0
    · subst hx
      rw [cellOf, lookupc_self]
      simp
    · rw [cellOf, lookupc_ne (F c0) _ hx]
      rw [← cellOf, ih]
      by_cases ht : x ∈ t
      · simp [ht, hx]
      · simp [ht, hx]

/-- Cell of a reindexed row. -/
theorem cellOf_reindex (cs : List Str) (r : Row) (x : Str) :
    cellOf (reindex cs r) x = if x ∈ cs then cellOf r x else none :=
  cellOf_mapCols cs (cellOf r) x

/-- The key list of a reindexed row is the column list. -/
theorem reindex_keys (cs : List Str) (r : Row) :
    (reindex cs r).map Prod.fst = cs := by
  unfold reindex
  rw [List.map_map]
  exact List.map_id cs

/-- A present key shields the cell from appended entries. -/
theorem cellOf_append_left (r s : Row) (x : Str) (h : (List.lookup x r).isSome) :
    cellOf (r ++ s) x = cellOf r x := by
  obtain ⟨u, hu⟩ := Option.isSome_iff_exists.mp h
  unfold cellOf
  rw [hu, lookup_append_left x r s u hu]

/-- An absent key defers the cell to appended entries. -/
theorem cellOf_append_right (r s : Row) (x : Str) (h : List.lookup x r = none) :
    cellOf (r ++ s) x = cellOf s x := by
  unfold cellOf
  rw [lookup_append_right x r s h]

/-- Appending an all-NaN column entry never changes any cell. -/
theorem cellOf_append_none (r : Row) (c x : Str) :
    cellOf (r ++ [(c, none)]) x = cellOf r x := by
  cases hl : List.lookup x r with
  | some u =>
    rw [cellOf_append_left r _ x (by rw [hl]; rfl)]
  | none =>
    rw [cellOf_append_right r _ x hl]
    unfold cellOf
    rw [hl]
    by_cases hx : x = c
    · subst hx
      rw [lookupc_self]
      rfl
    · rw [lookupc_ne none [] hx]
      rfl

/-- Appending an entry for a different column never changes the cell. -/
theorem cellOf_append_pair_ne (r : Row) (c x : Str) (cv : Cell) (hx : x ≠ c) :
    cellOf (r ++ [(c, cv)]) x = cellOf r x := by
  cases hl : List.lookup x r with
  | some u =>
    rw [cellOf_append_left r _ x (by rw [hl]; rfl)]
  | none =>
    rw [cellOf_append_right r _ x hl]
    unfold cellOf
    rw [hl, lookupc_ne cv [] hx]
    rfl

/-- Appending an entry for an absent column sets that cell. -/
theorem cellOf_append_pair_self (r : Row) (c : Str) (cv : Cell)
    (h : List.lookup c r = none) : cellOf (r ++ [(c, cv)]) c = cv := by
  rw [cellOf_append_right r _ c h]
  unfold cellOf
  rw [lookupc_self]
  rfl

/-- Cell provenance is reflexive. -/
theorem cellRel_refl (r : Row) : cellRel r r := fun _ => Or.inl rfl

/-- Cell provenance composes. -/
theorem cellRel_trans (a b c : Row) (hab : cellRel a b) (hbc : cellRel b c) :
    cellRel a c := by
  intro x
  rcases hbc x with h1 | ⟨h1, h2⟩
  · rcases hab x with h3 | ⟨h3, h4⟩
    · exact Or.inl (h1.trans h3)
    · exact Or.inr ⟨h3, h1.trans h4⟩
  · rcases hab x with h3 | ⟨h3, h4⟩
    · exact Or.inr ⟨h3 ▸ h1, h2⟩
    · rw [h4] at h1
      exact Option.noConfusion h1

/-- Pointwise equal cells give cell provenance. -/
theorem cellRel_of_eq (a b : Row) (h : ∀ x, cellOf b x = cellOf a x) : cellRel a b :=
  fun x => Or.inl (h x)

/-- A key absent from every entry looks up to none. -/
theorem lookup_eq_none_of_forall_ne {α : Type} (r : List (Str × α)) (x : Str)
    (h : ∀ kv ∈ r, kv.1 ≠ x) : List.lookup x r = none := by
  induction r with
  | nil => rfl
  | cons kv t ih =>
    obtain ⟨k0, v0⟩ := kv
    have hk : x ≠ k0 := fun he => h (k0, v0) (List.mem_cons_self _ _) he.symm
    rw [lookupc_ne v0 t hk]
    exact ih (fun kv hkv => h kv (List.mem_cons_of_mem _ hkv))

/-- Structure of the add-missing-columns fold: rows are padded by a
function that changes no cell, and the columns only grow. -/
theorem addColFold_struct (l : List Str) (df : DFrame) :
    ∃ pads : Row → Row, (l.foldl addColNone df).rows = df.rows.map pads ∧
      (∀ r x, cellOf (pads r) x = cellOf r x) ∧
      df.cols ⊆ (l.foldl addColNone df).cols := by
  induction l generalizing df with
  | nil =>
    exact ⟨id, (List.map_id df.rows).symm, fun _ _ => rfl, List.Subset.refl _⟩
  | cons c t ih =>
    simp only [List.foldl_cons]
    by_cases hc : c ∈ df.cols
    · rw [show addColNone df c = df from by simp [addColNone, hc]]
      exact ih df
    · have hdf1 : addColNone df c =
          ⟨df.cols ++ [c], df.rows.map (fun r => r ++ [(c, none)])⟩ := by
        simp [addColNone, hc]
      rw [hdf1]
      obtain ⟨pads1, hrows, hcell, hsub⟩ := ih ⟨df.cols ++ [c], df.rows.map (fun r => r ++ [(c, none)])⟩
      refine ⟨fun r => pads1 (r ++ [(c, none)]), ?_, ?_, ?_⟩
      · rw [hrows]
        simp [List.map_map]
      · intro r x
        rw [hcell (r ++ [(c, none)]) x, cellOf_append_none]
      · intro x hx
        exact hsub (List.mem_append_left [c] hx)

/-- Structure of the required-columns fold: rows are padded by a
function that preserves cells of existing columns and gives cell
provenance, key lists stay inside the grown column list. -/
theorem setColFold_struct (l : List Str) (df : DFrame) :
    ∃ pads : Row → Row, (l.foldl setColEmpty df).rows = df.rows.map pads ∧
      (∀ r x, x ∈ df.cols → cellOf (pads r) x = cellOf r x) ∧
      (∀ r, cellRel r (pads r)) ∧
      df.cols ⊆ (l.foldl setColEmpty df).cols ∧
      (∀ r, (∀ kv ∈ r, kv.1 ∈ df.cols) →
        ∀ kv ∈ pads r, kv.1 ∈ (l.foldl setColEmpty df).cols) := by
  induction l generalizing df with
  | nil =>
    exact ⟨id, (List.map_id df.rows).symm, fun _ _ _ => rfl,
      fun r => cellRel_refl r, List.Subset.refl _, fun r h => h⟩
  | cons c t ih =>
    simp only [List.foldl_cons]
    by_cases hc : c ∈ df.cols
    · rw [show setColEmpty df c = df from by simp [setColEmpty, hc]]
      exact ih df
    · have hdf1 : setColEmpty df c =
          ⟨df.cols ++ [c], df.rows.map (fun r => r ++ [(c, some [])])⟩ := by
        simp [setColEmpty, hc]
      rw [hdf1]
      obtain ⟨pads1, hrows, hkeep, hrel, hsub, hkeys⟩ :=
        ih ⟨df.cols ++ [c], df.rows.map (fun r => r ++ [(c, some [])])⟩
      refine ⟨fun r => pads1 (r ++ [(c, some [])]), ?_, ?_, ?_, ?_, ?_⟩
      · rw [hrows]
        simp [List.map_map]
      · intro r x hx
        have hxc : x ≠ c := fun he => hc (he ▸ hx)
        rw [hkeep (r ++ [(c, some [])]) x (List.mem_append_left [c] hx),
          cellOf_append_pair_ne r c x (some []) hxc]
      · intro r
        refine cellRel_trans r (r ++ [(c, some [])]) _ ?_ (hrel (r ++ [(c, some [])]))
        intro x
        by_cases hxc : x = c
        · subst hxc
          cases hl : List.lookup x r with
          | some u =>
            exact Or.inl (cellOf_append_left r _ x (by rw [hl]; rfl))
          | none =>
            refine Or.inr ⟨?_, ?_⟩
            · unfold cellOf; rw [hl]; rfl
            · rw [cellOf_append_pair_self r x (some []) hl]
        · exact Or.inl (cellOf_append_pair_ne r c x (some []) hxc)
      · intro x hx
        exact hsub (List.mem_append_left [c] hx)
      · intro r hr kv hkv
        refine hkeys (r ++ [(c, some [])]) ?_ kv hkv
        intro kv2 hkv2
        rcases List.mem_append.mp hkv2 with hm | hm
        · exact List.mem_append_left [c] (hr kv2 hm)
        · rcases List.mem_singleton.mp hm with heq
          rw [heq]
          exact List.mem_append_right df.cols (List.mem_singleton.mpr rfl)

/-- Cell of a filled row. -/
theorem fillRow_cell (df : DFrame) (r : Row) (x : Str) :
    cellOf (fillRow df r) x =
      if x ∈ df.cols then
        (match cellOf r x with
         | none => if colHasValue df x then some [] else none
         | some v => some v)
      else none :=
  cellOf_mapCols df.cols _ x

/-- Filling preserves a non-null cell of an existing column. -/
theorem fillRow_cell_keep (df : DFrame) (r : Row) (x : Str) (hx : x ∈ df.cols)
    (hs : (cellOf r x).isSome) : cellOf (fillRow df r) x = cellOf r x := by
  rw [fillRow_cell, if_pos hx]
  obtain ⟨u, hu⟩ := Option.isSome_iff_exists.mp hs
  rw [hu]

/-- Filling a rectangular row only turns nulls into empty strings. -/
theorem fillRow_rel (df : DFrame) (r : Row) (hks : ∀ kv ∈ r, kv.1 ∈ df.cols) :
    cellRel r (fillRow df r) := by
  intro x
  by_cases hx : x ∈ df.cols
  · rw [fillRow_cell, if_pos hx]
    cases hv : cellOf r x with
    | some v => exact Or.inl rfl
    | none =>
      by_cases hcv : colHasValue df x
      · exact Or.inr ⟨rfl, by simp [hcv]⟩
      · exact Or.inl (by simp [hcv])
  · rw [fillRow_cell, if_neg hx]
    refine Or.inl ?_
    unfold cellOf
    rw [lookup_eq_none_of_forall_ne r x (fun kv hkv he => hx (he ▸ hks kv hkv))]
    rfl

/-- drop_duplicates output: pairwise-distinct keys, all outside the seen
set. -/
theorem dropDup_nodup (l : List Row) (seen : List (Cell × Cell)) :
    ((dropDupRows l seen).map keyOf).Nodup ∧
    ∀ r ∈ dropDupRows l seen, keyOf r ∉ seen := by
  induction l generalizing seen with
  | nil => exact ⟨List.nodup_nil, fun r hr => absurd hr (List.not_mem_nil r)⟩
  | cons r t ih =>
    by_cases hs : keyOf r ∈ seen
    · rw [show dropDupRows (r :: t) seen = dropDupRows t seen from by
        simp [dropDupRows, hs]]
      exact ih seen
    · rw [show dropDupRows (r :: t) seen = r :: dropDupRows t (keyOf r :: seen) from by
        simp [dropDupRows, hs]]
      obtain ⟨hnd, hout⟩ := ih (keyOf r :: seen)
      constructor
      · rw [List.map_cons, List.nodup_cons]
        refine ⟨?_, hnd⟩
        intro hmem
        obtain ⟨r2, hr2, hkeq⟩ := List.mem_map.mp hmem
        exact hout r2 hr2 (hkeq ▸ List.mem_cons_self _ _)
      · intro r2 hr2
        rcases List.mem_cons.mp hr2 with heq | hm
        · exact heq ▸ hs
        · exact fun hin => hout r2 hm (List.mem_cons_of_mem _ hin)

/-- drop_duplicates keeps only input rows. -/
theorem dropDup_subset (l : List Row) (seen : List (Cell × Cell)) (r : Row)
    (hr : r ∈ dropDupRows l seen) : r ∈ l := by
  induction l generalizing seen with
  | nil => exact absurd hr (List.not_mem_nil r)
  | cons a t ih =>
    by_cases hs : keyOf a ∈ seen
    · rw [show dropDupRows (a :: t) seen = dropDupRows t seen from by
        simp [dropDupRows, hs]] at hr
      exact List.mem_cons_of_mem a (ih _ hr)
    · rw [show dropDupRows (a :: t) seen = a :: dropDupRows t (keyOf a :: seen) from by
        simp [dropDupRows, hs]] at hr
      rcases List.mem_cons.mp hr with heq | hm
      · exact heq ▸ List.mem_cons_self a t
      · exact List.mem_cons_of_mem a (ih _ hm)

/-- Concat keeps the left frame's columns. -/
theorem concat_cols_left (d1 d2 : DFrame) : d1.cols ⊆ (concatDF d1 d2).cols :=
  fun _ hc => List.mem_append_left _ hc

/-- Concat keeps the right frame's columns. -/
theorem concat_cols_right (d1 d2 : DFrame) : d2.cols ⊆ (concatDF d1 d2).cols := by
  intro c hc
  by_cases h1 : c ∈ d1.cols
  · exact List.mem_append_left _ h1
  · refine List.mem_append_right _ (List.mem_filter.mpr ⟨hc, ?_⟩)
    simp [h1]

/-- Membership in a presence-filtered column list. -/
theorem mem_colsOf_filter (cs cols : List Str) (c : Str) (h1 : c ∈ cs) (h2 : c ∈ cols) :
    c ∈ cs.filter (fun x => cols.contains x) :=
  List.mem_filter.mpr ⟨h1, by simpa⟩

/-- The name and source columns survive into the concatenated frame when
present in the excel source. -/
theorem combAll_key_cols (se w : DFrame) (hse1 : nomeSolK ∈ se.cols)
    (hse2 : fonteK ∈ se.cols) :
    nomeSolK ∈ (combAll se w).cols ∧ fonteK ∈ (combAll se w).cols := by
  obtain ⟨_, _, _, hsubE⟩ := addColFold_struct (webColsOf w) (selectCols se (excelColsOf se))
  have heC : nomeSolK ∈ excelColsOf se :=
    mem_colsOf_filter _ _ _ (by simp [excelColsList]) hse1
  have heCf : fonteK ∈ excelColsOf se :=
    mem_colsOf_filter _ _ _ (by simp [excelColsList]) hse2
  exact ⟨concat_cols_left _ _ (hsubE heC), concat_cols_left _ _ (hsubE heCf)⟩

/-- Provenance of a concatenated row: it reads, cell for cell, as the
column-selected reindexing of a single row of one of the two sources. -/
theorem combAll_prov (se w : DFrame) (r : Row) (hr : r ∈ (combAll se w).rows) :
    ∃ r0, (r0 ∈ se.rows ∧ ∀ x, cellOf r x = cellOf (reindex (excelColsOf se) r0) x) ∨
          (r0 ∈ w.rows ∧ ∀ x, cellOf r x = cellOf (reindex (webColsOf w) r0) x) := by
  have hcols : (combAll se w).cols =
      (dfExcel2 se w).cols ++
        List.filter (fun c => !((dfExcel2 se w).cols.contains c)) (dfWeb2 se w).cols := rfl
  obtain ⟨padsE, hrowsE, hcellE, hsubE⟩ :=
    addColFold_struct (webColsOf w) (selectCols se (excelColsOf se))
  obtain ⟨padsW, hrowsW, hcellW, hsubW⟩ :=
    addColFold_struct (excelColsOf se) (selectCols w (webColsOf w))
  obtain ⟨r2, hr2, rfl⟩ := List.mem_map.mp hr
  rcases List.mem_append.mp hr2 with hE | hW
  · rw [show (dfExcel2 se w).rows = (selectCols se (excelColsOf se)).rows.map padsE
      from hrowsE] at hE
    obtain ⟨r3, hr3, rfl⟩ := List.mem_map.mp hE
    obtain ⟨r4, hr4, rfl⟩ := List.mem_map.mp hr3
    refine ⟨r4, Or.inl ⟨hr4, ?_⟩⟩
    intro x
    rw [cellOf_reindex, ← hcols]
    by_cases hx : x ∈ (combAll se w).cols
    · rw [if_pos hx]
      exact hcellE _ x
    · rw [if_neg hx, cellOf_reindex,
        if_neg (show ¬ x ∈ excelColsOf se from
          fun hxe => hx (concat_cols_left _ _ (hsubE hxe)))]
  · rw [show (dfWeb2 se w).rows = (selectCols w (webColsOf w)).rows.map padsW
      from hrowsW] at hW
    obtain ⟨r3, hr3, rfl⟩ := List.mem_map.mp hW
    obtain ⟨r4, hr4, rfl⟩ := List.mem_map.mp hr3
    refine ⟨r4, Or.inr ⟨hr4, ?_⟩⟩
    intro x
    rw [cellOf_reindex, ← hcols]
    by_cases hx : x ∈ (combAll se w).cols
    · rw [if_pos hx]
      exact hcellW _ x
    · rw [if_neg hx, cellOf_reindex,
        if_neg (show ¬ x ∈ webColsOf w from
          fun hxe => hx (concat_cols_right _ _ (hsubW hxe)))]

/-- Every concatenated row is rectangular over the concatenated columns. -/
theorem combAll_keys (se w : DFrame) (r : Row) (hr : r ∈ (combAll se w).rows) :
    ∀ kv ∈ r, kv.1 ∈ (combAll se w).cols := by
  obtain ⟨r2, _, rfl⟩ := List.mem_map.mp hr
  intro kv hkv
  have hmm := List.mem_map_of_mem Prod.fst hkv
  rw [reindex_keys] at hmm
  exact hmm

/-- C4 (amended): in the two-source merge branch, the (name, source)
pairs of the merged catalog are pairwise distinct under exact,
case-sensitive comparison — provided both inputs carry the name and
source columns with non-null cells. -/
theorem dedup_exact_unique (se w : DFrame)
    (hse1 : nomeSolK ∈ se.cols) (hse2 : fonteK ∈ se.cols)
    (hw1 : nomeSolK ∈ w.cols) (hw2 : fonteK ∈ w.cols)
    (hne1 : se.rows ≠ []) (hne2 : w.rows ≠ [])
    (hnn : ∀ r ∈ se.rows ++ w.rows,
      (cellOf r nomeSolK).isSome ∧ (cellOf r fonteK).isSome) :
    combine_solutions (some se) (some w) ≠ none ∧
    ((((combine_solutions (some se) (some w)).getD emptyDF).rows.map keyOf)).Nodup := by
  have hco : combine_solutions (some se) (some w) = some (mainMerge se w) := by
    simp [combine_solutions, hne1, hne2]
  refine ⟨by simp [hco], ?_⟩
  rw [hco]
  simp only [Option.getD_some]
  have heC1 : nomeSolK ∈ excelColsOf se :=
    mem_colsOf_filter _ _ _ (by simp [excelColsList]) hse1
  have heC2 : fonteK ∈ excelColsOf se :=
    mem_colsOf_filter _ _ _ (by simp [excelColsList]) hse2
  have hwC1 : nomeSolK ∈ webColsOf w :=
    mem_colsOf_filter _ _ _ (by simp [webColsList]) hw1
  have hwC2 : fonteK ∈ webColsOf w :=
    mem_colsOf_filter _ _ _ (by simp [webColsList]) hw2
  obtain ⟨hn1, hf1⟩ := combAll_key_cols se w hse1 hse2
  have hP : ∀ r ∈ (dedupDF se w).rows,
      (cellOf r nomeSolK).isSome ∧ (cellOf r fonteK).isSome := by
    intro r hr
    have hrc : r ∈ (combAll se w).rows := dropDup_subset _ _ _ hr
    obtain ⟨r0, hcase⟩ := combAll_prov se w r hrc
    rcases hcase with ⟨hr0, heq⟩ | ⟨hr0, heq⟩
    · constructor
      · rw [heq nomeSolK, cellOf_reindex, if_pos heC1]
        exact (hnn r0 (List.mem_append_left _ hr0)).1
      · rw [heq fonteK, cellOf_reindex, if_pos heC2]
        exact (hnn r0 (List.mem_append_left _ hr0)).2
    · constructor
      · rw [heq nomeSolK, cellOf_reindex, if_pos hwC1]
        exact (hnn r0 (List.mem_append_right _ hr0)).1
      · rw [heq fonteK, cellOf_reindex, if_pos hwC2]
        exact (hnn r0 (List.mem_append_right _ hr0)).2
  have hnd : nomeSolK ∈ (dedupDF se w).cols := hn1
  have hfd : fonteK ∈ (dedupDF se w).cols := hf1
  obtain ⟨padsS, hrowsS, hkeepS, hrelS, hsubS, hkeysS⟩ :=
    setColFold_struct requiredCols (dedupDF se w)
  have hfr : (mainMerge se w).rows =
      (dedupDF se w).rows.map (fun r => fillRow (postDF se w) (padsS r)) := by
    show (fillnaObj (postDF se w)).rows = _
    simp only [fillnaObj]
    rw [show (postDF se w).rows = (dedupDF se w).rows.map padsS from hrowsS,
      List.map_map]
    rfl
  rw [hfr, List.map_map]
  have hcong : ∀ r ∈ (dedupDF se w).rows,
      (keyOf ∘ fun r => fillRow (postDF se w) (padsS r)) r = keyOf r := by
    intro r hr
    obtain ⟨hPn, hPf⟩ := hP r hr
    have hkn : cellOf (padsS r) nomeSolK = cellOf r nomeSolK := hkeepS r nomeSolK hnd
    have hkf : cellOf (padsS r) fonteK = cellOf r fonteK := hkeepS r fonteK hfd
    show keyOf (fillRow (postDF se w) (padsS r)) = keyOf r
    unfold keyOf
    rw [fillRow_cell_keep _ _ _ (show nomeSolK ∈ (postDF se w).cols from hsubS hnd)
        (by rw [hkn]; exact hPn), hkn,
      fillRow_cell_keep _ _ _ (show fonteK ∈ (postDF se w).cols from hsubS hfd)
        (by rw [hkf]; exact hPf), hkf]
  rw [List.map_congr_left hcong]
  exact (dropDup_nodup (combAll se w).rows []).1

/-- Witness for the exact-key uniqueness theorem on the concrete
mixed-case frames: the merged catalog's keys are pairwise distinct
case-sensitively. -/
theorem dedup_exact_unique_witness :
    combine_solutions (some seC4) (some wC4) ≠ none ∧
    ((((combine_solutions (some seC4) (some wC4)).getD emptyDF).rows.map keyOf)).Nodup :=
  dedup_exact_unique seC4 wC4 (by decide) (by decide) (by decide) (by decide)
    (by decide) (by decide) (by decide)

/-- C5 (amended): no backfill — every record of the merged catalog
derives from a single source record: each of its cells equals that
record's column-selected value, or the empty string where that value was
null. -/
theorem merge_no_backfill (se w : DFrame) (r2 : Row)
    (hne1 : se.rows ≠ []) (hne2 : w.rows ≠ [])
    (hr2 : r2 ∈ (mainMerge se w).rows) :
    combine_solutions (some se) (some w) = some (mainMerge se w) ∧
    ∃ r0, (r0 ∈ se.rows ∧ cellRel (reindex (excelColsOf se) r0) r2) ∨
          (r0 ∈ w.rows ∧ cellRel (reindex (webColsOf w) r0) r2) := by
  refine ⟨by simp [combine_solutions, hne1, hne2], ?_⟩
  obtain ⟨padsS, hrowsS, hkeepS, hrelS, hsubS, hkeysS⟩ :=
    setColFold_struct requiredCols (dedupDF se w)
  have hfr : (mainMerge se w).rows =
      (dedupDF se w).rows.map (fun r => fillRow (postDF se w) (padsS r)) := by
    show (fillnaObj (postDF se w)).rows = _
    simp only [fillnaObj]
    rw [show (postDF se w).rows = (dedupDF se w).rows.map padsS from hrowsS,
      List.map_map]
    rfl
  rw [hfr] at hr2
  obtain ⟨rd, hrd, rfl⟩ := List.mem_map.mp hr2
  have hrdc : rd ∈ (combAll se w).rows := dropDup_subset _ _ _ hrd
  have hkeys : ∀ kv ∈ rd, kv.1 ∈ (dedupDF se w).cols := combAll_keys se w rd hrdc
  have hrel2 : cellRel rd (fillRow (postDF se w) (padsS rd)) :=
    cellRel_trans rd (padsS rd) _ (hrelS rd)
      (fillRow_rel (postDF se w) (padsS rd) (hkeysS rd hkeys))
  obtain ⟨r0, hcase⟩ := combAll_prov se w rd hrdc
  rcases hcase with ⟨hr0, heq⟩ | ⟨hr0, heq⟩
  · exact ⟨r0, Or.inl ⟨hr0,
      cellRel_trans _ rd _ (cellRel_of_eq _ rd heq) hrel2⟩⟩
  · exact ⟨r0, Or.inr ⟨hr0,
      cellRel_trans _ rd _ (cellRel_of_eq _ rd heq) hrel2⟩⟩

/-- Witness for the no-backfill theorem: the first merged record of the
concrete frames derives from a single source record. -/
theorem merge_no_backfill_witness :
    combine_solutions (some seC5) (some wC5) = some (mainMerge seC5 wC5) ∧
    ∃ r0, (r0 ∈ seC5.rows ∧
        cellRel (reindex (excelColsOf seC5) r0) ((mainMerge seC5 wC5).rows.getD 0 [])) ∨
      (r0 ∈ wC5.rows ∧
        cellRel (reindex (webColsOf wC5) r0) ((mainMerge seC5 wC5).rows.getD 0 [])) :=
  merge_no_backfill seC5 wC5 ((mainMerge seC5 wC5).rows.getD 0 [])
    (by decide) (by decide) (by decide)
